import Mathlib

/-!
Verification of the Relay chat client (MLS over MQTT).

This file gives a shallow embedding of the three Rust sources of the
repository:

* `relay/src/main.rs`      -- the sealed-sender (metadata-hiding) variant;
  its sealed envelope codec (`seal_message` / `unseal_message`), the inbox
  processing and `send_chat`.
* `relay-rs/src/main.rs`   -- the reference client: `RelayClient` with its
  handlers (`handle_key_package`, `handle_welcome`, `handle_group_message`)
  and commands (`connect`, `send`, `find_peer`, `create_group`).
* `swift-openmls/src/lib.rs` -- the MLS facade; here only
  `RelayMlsClient::decrypt` is needed.

Modelling conventions, stated once:

* Byte strings are `List Nat`.
* Randomness (fresh group ids, fresh ephemeral scalars, fresh AES nonces,
  fresh key packages) is passed in as explicit arguments, or modelled by a
  monotone counter (`next_fresh`) where the code draws a fresh object from
  the RNG; each draw yields a value distinct from all previous draws.
* Calls into the OpenMLS library (CBOR / TLS parsing outcomes,
  `process_message` outcomes, `validate` outcomes) are data passed to the
  handler: an inductive value describing which of the outcomes the library
  produced for the inbound bytes.  The handler logic itself is translated
  from the Rust source line by line.
* An MLS group is modelled by its `group_id` bytes together with a
  `ratchet` counter which is bumped whenever the Rust code mutates the
  group in place (`process_message` on a decryptable message,
  `merge_staged_commit`, `merge_pending_commit`, `create_message`).
* The symmetric cipher, the X25519 scalar multiplication, CBOR encoding
  and HKDF are modelled symbolically: encodings are explicit injective
  byte-level framings, scalar multiplication is multiplication modulo a
  fixed modulus (which has the commutation property
  `a * (b * B) = b * (a * B)` actually used by the code), SHA-256 and HKDF
  are universally quantified function parameters.
-/

namespace Relay

/-- Byte strings (each entry is one byte; the embedding does not need the
`< 256` bound, the code only ever produces bytes). -/
abbrev Bytes := List Nat

/-! ## Association lists

`HashMap` in the Rust sources is modelled by an association list with
insert-replace semantics; only `lookup` / `insert` / `contains_key` /
key iteration are used by the code. -/

/-- `HashMap::get`. -/
def lookupA {α : Type} : List (String × α) → String → Option α
  | [], _ => none
  | (k, v) :: rest, q => if k = q then some v else lookupA rest q

/-- `HashMap::insert` (replaces any previous binding of the key). -/
def insertA {α : Type} (l : List (String × α)) (k : String) (v : α) :
    List (String × α) :=
  (k, v) :: l.filter (fun p => !decide (p.1 = k))

@[simp] theorem lookupA_nil {α : Type} (q : String) :
    lookupA ([] : List (String × α)) q = none := rfl

@[simp] theorem lookupA_cons {α : Type} (k : String) (v : α) (l : List (String × α))
    (q : String) :
    lookupA ((k, v) :: l) q = if k = q then some v else lookupA l q := rfl

theorem lookupA_filter_ne {α : Type} (l : List (String × α)) (k q : String)
    (h : k ≠ q) :
    lookupA (l.filter (fun p => !decide (p.1 = k))) q = lookupA l q := by
  induction l with
  | nil => rfl
  | cons p rest ih =>
    cases p with
    | mk k' v' =>
      by_cases hk : k' = k
      · subst hk
        rw [List.filter_cons_of_neg (by simp)]
        rw [ih]
        simp [lookupA, h]
      · rw [List.filter_cons_of_pos (by simpa using hk)]
        by_cases hq : k' = q <;> simp [lookupA, hq, ih]

@[simp] theorem lookupA_insertA_self {α : Type} (l : List (String × α)) (k : String)
    (v : α) : lookupA (insertA l k v) k = some v := by
  simp [insertA, lookupA]

theorem lookupA_insertA_ne {α : Type} (l : List (String × α)) (k q : String) (v : α)
    (h : k ≠ q) : lookupA (insertA l k v) q = lookupA l q := by
  simp only [insertA, lookupA_cons, lookupA_filter_ne l k q h, if_neg h]

theorem lookupA_eq_none_forall {α : Type} (l : List (String × α)) (k : String)
    (h : lookupA l k = none) : ∀ p ∈ l, p.1 ≠ k := by
  induction l with
  | nil => intro p hp; cases hp
  | cons q rest ih =>
    intro p hp
    cases q with
    | mk k' v' =>
      by_cases hk : k' = k
      · simp [lookupA, hk] at h
      · rcases List.mem_cons.mp hp with h1 | h1
        · subst h1; simpa using hk
        · exact ih (by simpa [lookupA, hk] using h) p h1

theorem lookupA_isSome_iff_mem_keys {α : Type} (l : List (String × α)) (k : String) :
    (lookupA l k).isSome = true ↔ k ∈ l.map Prod.fst := by
  induction l with
  | nil => simp [lookupA]
  | cons p rest ih =>
    cases p with
    | mk k' v' =>
      by_cases hk : k' = k
      · subst hk; simp [lookupA]
      · have hk' : k ≠ k' := fun h => hk h.symm
        simp [lookupA, hk, hk', ih]

/-! ## The sealed envelope codec (`relay/src/main.rs`)

Symbolic byte-level framing used to model CBOR and AES-GCM: a
self-delimiting unary length code.  The only properties the proofs use are
that encoding is injective and that the parsers invert the encoders. -/

/-- Self-delimiting encoding of a natural number. -/
def encNat (n : Nat) : Bytes := List.replicate n 1 ++ [0]

/-- Parser inverting `encNat`; returns the value and the remaining input. -/
def parseNat : Bytes → Option (Nat × Bytes)
  | 0 :: r => some (0, r)
  | 1 :: r =>
    match parseNat r with
    | some (n, r') => some (n + 1, r')
    | none => none
  | _ => none

@[simp] theorem parseNat_encNat (n : Nat) (r : Bytes) :
    parseNat (encNat n ++ r) = some (n, r) := by
  induction n with
  | zero => rfl
  | succ m ih =>
    have h : parseNat (List.replicate m 1 ++ 0 :: r) = some (m, r) := by
      simpa [encNat, List.append_assoc] using ih
    rw [encNat, List.replicate_succ]
    simp only [List.cons_append, List.append_assoc, List.singleton_append]
    simp [parseNat, h]

/-- Length-prefixed encoding of a byte string. -/
def encBytes (b : Bytes) : Bytes := encNat b.length ++ b

/-- Parser inverting `encBytes`. -/
def parseBytes (l : Bytes) : Option (Bytes × Bytes) :=
  match parseNat l with
  | some (n, r) => if n ≤ r.length then some (r.take n, r.drop n) else none
  | none => none

@[simp] theorem parseBytes_encBytes (b : Bytes) (r : Bytes) :
    parseBytes (encBytes b ++ r) = some (b, r) := by
  simp [encBytes, parseBytes, List.take_left, List.drop_left]

theorem parseBytes_encBytes_nil (b : Bytes) :
    parseBytes (encBytes b) = some (b, []) := by
  simpa using parseBytes_encBytes b []

/-! ### X25519 (curve25519-dalek `Scalar` / `MontgomeryPoint`)

Scalars and points are naturals; `MontgomeryPoint::mul_base` and scalar
multiplication act modulo a fixed modulus `pMod`.  The only algebraic fact
the code relies on is `e * (s * B) = s * (e * B)` (Diffie-Hellman
agreement), which this model has. -/

/-- Modulus of the symbolic scalar/point arithmetic (the curve25519 field
prime; any modulus below `2^256` would do). -/
def pMod : Nat := 2 ^ 255 - 19

/-- `MontgomeryPoint::mul_base`. -/
def mulBase (s : Nat) : Nat := s % pMod

/-- Scalar multiplication `s · P` (Rust `scalar * point`). -/
def scalarMult (s p : Nat) : Nat := s * p % pMod

theorem scalarMult_mulBase_comm (a b : Nat) :
    scalarMult a (mulBase b) = scalarMult b (mulBase a) := by
  unfold scalarMult mulBase
  conv_lhs => rw [Nat.mul_mod, Nat.mod_mod_of_dvd _ dvd_rfl, ← Nat.mul_mod]
  conv_rhs => rw [Nat.mul_mod, Nat.mod_mod_of_dvd _ dvd_rfl, ← Nat.mul_mod]
  rw [Nat.mul_comm]

/-- `MontgomeryPoint::as_bytes`: 32-byte little-endian encoding. -/
def toDigits : Nat → Nat → Bytes
  | 0, _ => []
  | k + 1, n => n % 256 :: toDigits k (n / 256)

def fromDigits : Bytes → Nat
  | [] => 0
  | d :: r => d + 256 * fromDigits r

def encode32 (n : Nat) : Bytes := toDigits 32 n

/-- `<[u8; 32]>::try_from` on a byte vector followed by `MontgomeryPoint(..)`:
fails unless the length is exactly 32. -/
def decode32 (l : Bytes) : Option Nat :=
  if l.length = 32 then some (fromDigits l) else none

@[simp] theorem length_toDigits (k n : Nat) : (toDigits k n).length = k := by
  induction k generalizing n with
  | zero => rfl
  | succ m ih => simp [toDigits, ih]

theorem fromDigits_toDigits (k n : Nat) : fromDigits (toDigits k n) = n % 256 ^ k := by
  induction k generalizing n with
  | zero => simp [toDigits, fromDigits, Nat.mod_one]
  | succ m ih =>
    rw [toDigits, fromDigits, ih, pow_succ, Nat.mul_comm (256 ^ m) 256, Nat.mod_mul]

theorem decode32_encode32 (n : Nat) (h : n < 256 ^ 32) :
    decode32 (encode32 n) = some n := by
  rw [decode32, encode32, if_pos (length_toDigits 32 n), fromDigits_toDigits,
    Nat.mod_eq_of_lt h]

theorem mulBase_lt (s : Nat) : mulBase s < 256 ^ 32 := by
  have h1 : mulBase s < pMod := Nat.mod_lt _ (by norm_num [pMod])
  have h2 : pMod < 256 ^ 32 := by norm_num [pMod]
  omega

/-! ### AES-256-GCM, symbolically

A ciphertext determines (key, nonce, plaintext); decryption checks the key
and nonce and recovers the plaintext, failing otherwise (authenticated
encryption, Dolev-Yao style). -/

/-- `Aes256Gcm::encrypt`. -/
def aesEnc (key nonce pt : Bytes) : Bytes := encBytes key ++ encBytes nonce ++ pt

/-- `Aes256Gcm::decrypt`; `none` is the GCM tag mismatch. -/
def aesDec (key nonce ct : Bytes) : Option Bytes :=
  match parseBytes ct with
  | none => none
  | some (k, r) =>
    match parseBytes r with
    | none => none
    | some (n, pt) => if k = key ∧ n = nonce then some pt else none

@[simp] theorem aesDec_aesEnc (key nonce pt : Bytes) :
    aesDec key nonce (aesEnc key nonce pt) = some pt := by
  simp [aesEnc, aesDec, List.append_assoc]

/-! ### Wire structures and their CBOR encodings -/

/-- `InnerPayload` of `relay/src/main.rs` (strings carried as their UTF-8
bytes). -/
structure InnerPayload where
  msg_type : Nat
  sender_user_id : Bytes
  sender_identity_key : Bytes
  content : Bytes
  ratchet_tree : Bytes
  sender_outer_public_key : Bytes
deriving DecidableEq, Repr

/-- `SealedEnvelope` of `relay/src/main.rs`. -/
structure SealedEnvelope where
  version : Nat
  ephemeral_public_key : Bytes
  encrypted_payload : Bytes
  pow_nonce : Nat
deriving DecidableEq, Repr

/-- `ciborium::into_writer` on an `InnerPayload` (injective framing). -/
def cborInner (p : InnerPayload) : Bytes :=
  encNat p.msg_type ++ encBytes p.sender_user_id ++ encBytes p.sender_identity_key ++
    encBytes p.content ++ encBytes p.ratchet_tree ++ encBytes p.sender_outer_public_key

/-- `ciborium::from_reader` for an `InnerPayload`; `none` is a CBOR decode
failure. -/
def cborInnerDec (l : Bytes) : Option InnerPayload :=
  match parseNat l with
  | none => none
  | some (mt, r1) =>
    match parseBytes r1 with
    | none => none
    | some (uid, r2) =>
      match parseBytes r2 with
      | none => none
      | some (sik, r3) =>
        match parseBytes r3 with
        | none => none
        | some (ct, r4) =>
          match parseBytes r4 with
          | none => none
          | some (rt, r5) =>
            match parseBytes r5 with
            | none => none
            | some (sopk, _) => some ⟨mt, uid, sik, ct, rt, sopk⟩

@[simp] theorem cborInnerDec_cborInner (p : InnerPayload) :
    cborInnerDec (cborInner p) = some p := by
  cases p
  simp [cborInner, cborInnerDec, List.append_assoc, parseBytes_encBytes_nil]

/-- `ciborium::into_writer` on a `SealedEnvelope` (injective framing); this
is the byte string whose SHA-256 hash carries the proof of work. -/
def cborEnv (e : SealedEnvelope) : Bytes :=
  encNat e.version ++ encBytes e.ephemeral_public_key ++
    encBytes e.encrypted_payload ++ encNat e.pow_nonce

/-! ### `seal_message` / `unseal_message`

`hash2` stands for SHA-256 restricted to the first two bytes of the digest
(the only part the code inspects); `hk` stands for
`HKDF-SHA256(salt = none, info = "relay-seal-v1")` applied to the 32-byte
shared-secret encoding.  Both are universally quantified parameters. -/

inductive SealErr where
  | invalidKey   -- peer public key is not 32 bytes
  | outOfFuel    -- the PoW mining loop has not found a nonce yet
deriving DecidableEq, Repr

inductive UnsealErr where
  | invalidPoW   -- "Invalid PoW"
  | invalidKey   -- "Key": ephemeral key is not 32 bytes
  | short        -- "Short": encrypted payload below 12 bytes
  | decryptFail  -- "Decrypt Fail": GCM tag mismatch
  | decodeFail   -- CBOR decode failure of the plaintext
deriving DecidableEq, Repr

/-- The PoW mining loop of `seal_message`: starting from `pow_nonce = start`,
find the first nonce making the first two hash bytes zero.  The Rust loop is
unbounded; `fuel` bounds the search in the model. -/
def mineFrom (hash2 : Bytes → Nat × Nat) (eph payload : Bytes) :
    Nat → Nat → Option Nat
  | _, 0 => none
  | start, fuel + 1 =>
    if (hash2 (cborEnv ⟨1, eph, payload, start⟩)).1 = 0 ∧
        (hash2 (cborEnv ⟨1, eph, payload, start⟩)).2 = 0 then some start
    else mineFrom hash2 eph payload (start + 1) fuel

theorem mineFrom_sound (hash2 : Bytes → Nat × Nat) (eph payload : Bytes) :
    ∀ fuel start n, mineFrom hash2 eph payload start fuel = some n →
      (hash2 (cborEnv ⟨1, eph, payload, n⟩)).1 = 0 ∧
        (hash2 (cborEnv ⟨1, eph, payload, n⟩)).2 = 0 := by
  intro fuel
  induction fuel with
  | zero => intro start n h; cases h
  | succ m ih =>
    intro start n h
    rw [mineFrom] at h
    split at h
    · cases h
      assumption
    · exact ih _ _ h

/-- `seal_message(payload, peer_public_bytes)`.  `eSec` is the random
ephemeral scalar and `nonce` the random 12-byte AES-GCM nonce drawn inside
the function. -/
def seal_message (hash2 : Bytes → Nat × Nat) (hk : Bytes → Bytes)
    (payload : InnerPayload) (peerPublicBytes : Bytes) (eSec : Nat)
    (nonce : Bytes) (fuel : Nat) : Except SealErr SealedEnvelope :=
  let payloadBytes := cborInner payload
  match decode32 peerPublicBytes with
  | none => .error .invalidKey
  | some peerPoint =>
    let shared := scalarMult eSec peerPoint
    let key := hk (encode32 shared)
    let finalCt := nonce ++ aesEnc key nonce payloadBytes
    let ephBytes := encode32 (mulBase eSec)
    match mineFrom hash2 ephBytes finalCt 0 fuel with
    | none => .error .outOfFuel
    | some n => .ok ⟨1, ephBytes, finalCt, n⟩

/-- `unseal_message(envelope, my_secret)`. -/
def unseal_message (hash2 : Bytes → Nat × Nat) (hk : Bytes → Bytes)
    (envelope : SealedEnvelope) (mySecret : Nat) : Except UnsealErr InnerPayload :=
  if (hash2 (cborEnv envelope)).1 = 0 ∧ (hash2 (cborEnv envelope)).2 = 0 then
    match decode32 envelope.ephemeral_public_key with
    | none => .error .invalidKey
    | some ephPoint =>
      let shared := scalarMult mySecret ephPoint
      let key := hk (encode32 shared)
      if envelope.encrypted_payload.length < 12 then .error .short
      else
        let nonce := envelope.encrypted_payload.take 12
        let ct := envelope.encrypted_payload.drop 12
        match aesDec key nonce ct with
        | none => .error .decryptFail
        | some plain =>
          match cborInnerDec plain with
          | none => .error .decodeFail
          | some inner => .ok inner
  else .error .invalidPoW

/-- C3, claim theorem. -/
theorem seal_unseal_roundtrip (hash2 : Bytes → Nat × Nat) (hk : Bytes → Bytes)
    (p : InnerPayload) (sec eSec : Nat) (nonce : Bytes) (fuel : Nat)
    (env : SealedEnvelope) (hn : nonce.length = 12)
    (hs : seal_message hash2 hk p (encode32 (mulBase sec)) eSec nonce fuel = .ok env) :
    unseal_message hash2 hk env sec = .ok p := by
  rw [seal_message] at hs
  rw [decode32_encode32 _ (mulBase_lt sec)] at hs
  simp only at hs
  set key := hk (encode32 (scalarMult eSec (mulBase sec))) with hkeydef
  cases hmine : mineFrom hash2 (encode32 (mulBase eSec))
      (nonce ++ aesEnc key nonce (cborInner p)) 0 fuel with
  | none => rw [hmine] at hs; cases hs
  | some n =>
    rw [hmine] at hs
    have henv : env = ⟨1, encode32 (mulBase eSec),
        nonce ++ aesEnc key nonce (cborInner p), n⟩ := by
      cases hs; rfl
    subst henv
    have hpow := mineFrom_sound hash2 _ _ fuel 0 n hmine
    rw [unseal_message, if_pos hpow]
    rw [decode32_encode32 _ (mulBase_lt eSec)]
    simp only
    have hshared : scalarMult sec (mulBase eSec) = scalarMult eSec (mulBase sec) :=
      scalarMult_mulBase_comm sec eSec
    rw [hshared, ← hkeydef]
    have hlen : ¬ (nonce ++ aesEnc key nonce (cborInner p)).length < 12 := by
      simp [hn]
    rw [if_neg hlen]
    rw [show (12 : Nat) = nonce.length from hn.symm, List.take_left, List.drop_left]
    rw [aesDec_aesEnc]
    simp [cborInnerDec_cborInner]

/-- C3, witness input: a concrete hash function (constant zero, so the PoW
target is met at once), the identity as HKDF, a small payload and scalars. -/
def hash2W : Bytes → Nat × Nat := fun _ => (0, 0)

def hkW : Bytes → Bytes := fun b => b

def payloadW : InnerPayload := ⟨3, [1, 2], [], [7], [], [9]⟩

def nonceW : Bytes := List.replicate 12 0

def envW : SealedEnvelope :=
  match seal_message hash2W hkW payloadW (encode32 (mulBase 5)) 11 nonceW 1 with
  | .ok e => e
  | .error _ => ⟨0, [], [], 0⟩

/-- C3, witness. -/
theorem seal_unseal_roundtrip_witness :
    nonceW.length = 12 ∧
      seal_message hash2W hkW payloadW (encode32 (mulBase 5)) 11 nonceW 1 = .ok envW ∧
      unseal_message hash2W hkW envW 5 = .ok payloadW :=
  ⟨by decide, by rfl,
    seal_unseal_roundtrip hash2W hkW payloadW 5 11 nonceW 1 envW (by decide) (by rfl)⟩

/-- C8, claim theorem: the three structural failure modes of
`unseal_message`, in the order the code checks them. -/
theorem unseal_failure_modes (hash2 : Bytes → Nat × Nat) (hk : Bytes → Bytes)
    (env : SealedEnvelope) (sec : Nat) :
    ((hash2 (cborEnv env)).1 ≠ 0 ∨ (hash2 (cborEnv env)).2 ≠ 0 →
      unseal_message hash2 hk env sec = .error .invalidPoW) ∧
    ((hash2 (cborEnv env)).1 = 0 ∧ (hash2 (cborEnv env)).2 = 0 →
      env.ephemeral_public_key.length = 32 → env.encrypted_payload.length < 12 →
      unseal_message hash2 hk env sec = .error .short) ∧
    ((hash2 (cborEnv env)).1 = 0 ∧ (hash2 (cborEnv env)).2 = 0 →
      env.ephemeral_public_key.length ≠ 32 →
      unseal_message hash2 hk env sec = .error .invalidKey) := by
  refine ⟨fun h => ?_, fun hp h32 hshort => ?_, fun hp h32 => ?_⟩
  · rw [unseal_message, if_neg (by tauto)]
  · rw [unseal_message, if_pos hp, decode32, if_pos h32]
    simp only
    rw [if_pos hshort]
  · rw [unseal_message, if_pos hp, decode32, if_neg h32]

/-- C8, witness inputs: a hash with nonzero first byte for the PoW case, and
the constant-zero hash with a short payload and with a bad ephemeral key. -/
def hash2Bad : Bytes → Nat × Nat := fun _ => (7, 0)

def envShortW : SealedEnvelope := ⟨1, List.replicate 32 0, [1, 2, 3], 0⟩

def envBadKeyW : SealedEnvelope := ⟨1, [4, 4], List.replicate 20 0, 0⟩

/-- C8, witness. -/
theorem unseal_failure_modes_witness :
    unseal_message hash2Bad hkW envShortW 5 = .error .invalidPoW ∧
      unseal_message hash2W hkW envShortW 5 = .error .short ∧
      unseal_message hash2W hkW envBadKeyW 5 = .error .invalidKey :=
  ⟨(unseal_failure_modes hash2Bad hkW envShortW 5).1 (by decide),
    (unseal_failure_modes hash2W hkW envShortW 5).2.1 (by decide) (by decide) (by decide),
    (unseal_failure_modes hash2W hkW envBadKeyW 5).2.2 (by decide) (by decide)⟩

/-! ## The reference client (`relay-rs/src/main.rs`)

`RelayClient` holds four maps/lists next to its identity; the MQTT client
is replaced by an effect trace; the OpenMLS backend by parse/process
outcome data (see the conventions at the top of the file). -/

/-- An MLS group as stored in the `groups` map: its 16-byte `group_id` and a
counter bumped on every in-place mutation (commit merge, message creation,
message processing) — see the conventions at the top of the file. -/
structure Group where
  gid : Bytes
  ratchet : Nat
deriving DecidableEq, Repr

/-- Payload of an outgoing MQTT publish.  A key package is identified by
the freshness token of the draw that built it. -/
inductive MsgOut where
  | kp (tok : Nat)
  | welcome
  | groupInfo
  | groupMsg (ct : Nat)
deriving DecidableEq, Repr

/-- Externally visible actions of the client, in program order. -/
inductive Effect where
  | pubEff (topic : String) (retained : Bool) (m : MsgOut)
  | subEff (topic : String)
  | logEff (line : String)
  | msgEff (sender : String) (text : String) (isSelf : Bool)
deriving DecidableEq, Repr

/-- The `anyhow` errors of `relay-rs/src/main.rs`, one constructor per
distinct error site. -/
inductive RelayErr where
  | invalidTopic
  | serErr                 -- ciborium / tls_codec deserialization failure
  | emptyArray
  | expectedKeyPackage
  | expectedWelcome
  | expectedProtocolMsg    -- "Expected PrivateMessage or PublicMessage"
  | mlsErr                 -- any other OpenMLS error
  | joinErr                -- StagedWelcome / into_group failure
  | noKeyPackage           -- "No KeyPackage for peer"
  | noSession (peer : String)
  | noPeersAvailable
  | unknownPeer (query : String) (available : List String)
  | unknownGroup
  | noGroupForPeer
deriving DecidableEq, Repr

/-- `RelayClient`.  `next_fresh` is the freshness counter for key-package
draws; `last_kp` is the token of the most recently published own key
package. -/
structure ClientState where
  client_id : String
  key_packages : List (String × Nat)     -- peer_id -> KeyPackage (token)
  groups : List (String × Group)         -- peer_id -> MlsGroup
  group_peers : List (String × String)   -- group_id (hex) -> peer_id
  pending_connects : List String
  next_fresh : Nat
  last_kp : Nat
deriving DecidableEq, Repr

/-- A handler result: the mutated state (mutations made before an error
persist, as with `&mut self` in Rust), the emitted effects, and the error
returned, if any. -/
abbrev HandlerResult := ClientState × List Effect × Option RelayErr

/-- `hex::encode` of one nibble. -/
def hexDigitChar (d : Nat) : Char :=
  if d < 10 then Char.ofNat (48 + d) else Char.ofNat (87 + d)

/-- `hex::encode`. -/
def hexEncode (bs : Bytes) : String :=
  ⟨bs.flatMap (fun b => [hexDigitChar (b / 16 % 16), hexDigitChar (b % 16)])⟩

/-- `str::strip_prefix`. -/
def stripPre (pre s : String) : Option String :=
  if pre.data.isPrefixOf s.data then some ⟨s.data.drop pre.data.length⟩ else none

/-- `str::strip_suffix`. -/
def stripSuf (suf s : String) : Option String :=
  if suf.data.isSuffixOf s.data then
    some ⟨s.data.take (s.data.length - suf.data.length)⟩
  else none

/-- `RelayClient::publish_key_package`: builds a fresh `KeyPackage` (a new
freshness token) and publishes it retained on `relay/k/<self>`. -/
def publish_key_package (s : ClientState) : ClientState × List Effect :=
  ({ s with next_fresh := s.next_fresh + 1, last_kp := s.next_fresh },
   [.pubEff ("relay/k/" ++ s.client_id) true (.kp s.next_fresh)])

/-- `RelayClient::create_group`: requires the peer's `KeyPackage`; creates
an MLS group under the random 16-byte `group_id` `gidB` (passed in for the
RNG draw), adds the peer and merges the commit (ratchet counter 2),
publishes the retained `GroupInfo` and the `Welcome`, subscribes to the
group topic and indexes the group under both maps. -/
def create_group (s : ClientState) (peer : String) (gidB : Bytes) : HandlerResult :=
  match lookupA s.key_packages peer with
  | none => (s, [], some .noKeyPackage)
  | some _ =>
    let gidHex := hexEncode gidB
    ({ s with group_peers := insertA s.group_peers gidHex peer,
              groups := insertA s.groups peer ⟨gidB, 2⟩ },
     [.pubEff ("relay/g/" ++ gidHex ++ "/i") true .groupInfo,
      .pubEff ("relay/w/" ++ peer) false .welcome,
      .subEff ("relay/g/" ++ gidHex ++ "/m")],
     none)

/-- `RelayClient::connect`. -/
def connect (s : ClientState) (peer : String) (gidB : Bytes) : HandlerResult :=
  if (lookupA s.groups peer).isSome then
    (s, [.logEff ("Already connected to " ++ peer)], none)
  else if (lookupA s.key_packages peer).isSome then
    match create_group s peer gidB with
    | (s1, effs, some e) => (s1, effs, some e)
    | (s1, effs, none) =>
      (s1, effs ++ [.logEff ("Session established with " ++ peer)], none)
  else
    ({ s with pending_connects := s.pending_connects ++ [peer] },
     [.subEff ("relay/k/" ++ peer), .logEff ("Connecting to " ++ peer ++ "...")],
     none)

/-- Outcome of the CBOR-unwrap / `MlsMessageIn` / `extract` / `validate`
pipeline on an inbound key-package payload. -/
inductive KpParse where
  | cborFail        -- ciborium::from_reader failed
  | emptyArr        -- the CBOR array was empty
  | deserFail       -- MlsMessageIn::tls_deserialize failed
  | notKeyPackage   -- body was not a KeyPackage
  | validateFail    -- validate(crypto, Mls10) failed
  | valid (tok : Nat)
deriving DecidableEq, Repr

/-- `RelayClient::handle_key_package`.  `gidB` is the random group id drawn
if a pending connect completes. -/
def handle_key_package (s : ClientState) (topic : String) (parse : KpParse)
    (gidB : Bytes) : HandlerResult :=
  match stripPre "relay/k/" topic with
  | none => (s, [], some .invalidTopic)
  | some peer =>
    if peer = s.client_id then (s, [], none)
    else
      match parse with
      | .cborFail => (s, [], some .serErr)
      | .emptyArr => (s, [], some .emptyArray)
      | .deserFail => (s, [], some .serErr)
      | .notKeyPackage => (s, [], some .expectedKeyPackage)
      | .validateFail => (s, [], some .mlsErr)
      | .valid tok =>
        let s1 := { s with key_packages := insertA s.key_packages peer tok }
        if peer ∈ s1.pending_connects then
          let s2 := { s1 with pending_connects := s1.pending_connects.erase peer }
          match create_group s2 peer gidB with
          | (s3, effs, some e) => (s3, effs, some e)
          | (s3, effs, none) =>
            (s3, effs ++ [.logEff ("Session established with " ++ peer)], none)
        else
          (s1, [.logEff ("Received KeyPackage for " ++ peer)], none)

/-- Outcome of deserializing an inbound `Welcome` and joining the group:
either one of the failures, or the joined group together with the peer id
read off the member credentials. -/
inductive WParse where
  | deserFail
  | notWelcome
  | joinFail
  | joined (g : Group) (peer : String)
deriving DecidableEq, Repr

/-- `RelayClient::handle_welcome`. -/
def handle_welcome (s : ClientState) (parse : WParse) : HandlerResult :=
  match parse with
  | .deserFail => (s, [], some .serErr)
  | .notWelcome => (s, [], some .expectedWelcome)
  | .joinFail => (s, [], some .joinErr)
  | .joined g peer =>
    let gidHex := hexEncode g.gid
    let s1 := { s with group_peers := insertA s.group_peers gidHex peer,
                       groups := insertA s.groups peer g }
    let (s2, kpEffs) := publish_key_package s1
    (s2,
     [Effect.subEff ("relay/g/" ++ gidHex ++ "/m")] ++ kpEffs ++
       [.logEff ("Session established with " ++ peer),
        .logEff ("Use chat " ++ peer ++ " <message> to reply")],
     none)

/-- Outcome of `group.process_message` (after a successful deserialization
to a `PrivateMessage`/`PublicMessage`). -/
inductive GmOutcome where
  | appMsg (text : String)   -- ApplicationMessage
  | stagedOk                 -- StagedCommitMessage; merge_staged_commit succeeds
  | stagedFail               -- StagedCommitMessage; merge_staged_commit fails
  | proposalMsg              -- any other ProcessedMessageContent
  | ownMsgErr                -- ValidationError::CannotDecryptOwnMessage
  | otherErr                 -- any other ProcessMessageError
deriving DecidableEq, Repr

/-- Outcome of deserializing an inbound group message. -/
inductive GmParse where
  | deserFail
  | badBody
  | processed (o : GmOutcome)
deriving DecidableEq, Repr

/-- `RelayClient::handle_group_message`. -/
def handle_group_message (s : ClientState) (topic : String) (parse : GmParse) :
    HandlerResult :=
  match stripPre "relay/g/" topic with
  | none => (s, [], some .invalidTopic)
  | some rest =>
    match stripSuf "/m" rest with
    | none => (s, [], some .invalidTopic)
    | some gidHex =>
      match lookupA s.group_peers gidHex with
      | none => (s, [], some .unknownGroup)
      | some peer =>
        match lookupA s.groups peer with
        | none => (s, [], some .noGroupForPeer)
        | some g =>
          match parse with
          | .deserFail => (s, [], some .serErr)
          | .badBody => (s, [], some .expectedProtocolMsg)
          | .processed o =>
            match o with
            | .ownMsgErr => (s, [], none)
            | .otherErr => (s, [], some .mlsErr)
            | .appMsg text =>
              ({ s with groups := insertA s.groups peer { g with ratchet := g.ratchet + 1 } },
               [.msgEff peer text false], none)
            | .stagedOk =>
              ({ s with groups := insertA s.groups peer { g with ratchet := g.ratchet + 2 } },
               [], none)
            | .stagedFail =>
              ({ s with groups := insertA s.groups peer { g with ratchet := g.ratchet + 1 } },
               [], some .mlsErr)
            | .proposalMsg =>
              ({ s with groups := insertA s.groups peer { g with ratchet := g.ratchet + 1 } },
               [], none)

/-- The "Available:" listing built at the end of `RelayClient::find_peer`. -/
def availList (s : ClientState) : List String :=
  (s.groups.map Prod.fst).map (fun p => p ++ " (session)") ++
    ((s.key_packages.map Prod.fst).filter
        (fun p => (lookupA s.groups p).isNone)).map (fun p => p ++ " (keypackage)")

/-- Result of `RelayClient::find_peer`. -/
inductive FindRes where
  | found (peer : String)
  | errNoPeers                                      -- "No peers available."
  | errUnknown (query : String) (available : List String)
deriving DecidableEq, Repr

/-- `RelayClient::find_peer`. -/
def find_peer (s : ClientState) (query : String) : FindRes :=
  if (lookupA s.groups query).isSome then .found query
  else if (lookupA s.key_packages query).isSome then .found query
  else
    match (s.groups.map Prod.fst).filter (fun k => query.data.isPrefixOf k.data) with
    | [p] => .found p
    | _ =>
      match (s.key_packages.map Prod.fst).filter
          (fun k => query.data.isPrefixOf k.data) with
      | [p] => .found p
      | _ =>
        if (availList s).isEmpty then .errNoPeers
        else .errUnknown query (availList s)

/-- `RelayClient::send` (the `chat` command).  `ct` is the ciphertext
produced by `create_message`. -/
def send (s : ClientState) (query text : String) (ct : Nat) : HandlerResult :=
  match find_peer s query with
  | .errNoPeers => (s, [], some .noPeersAvailable)
  | .errUnknown q avail => (s, [], some (.unknownPeer q avail))
  | .found peer =>
    match lookupA s.groups peer with
    | none => (s, [], some (.noSession peer))
    | some g =>
      let gidHex := hexEncode g.gid
      ({ s with groups := insertA s.groups peer { g with ratchet := g.ratchet + 1 } },
       [.pubEff ("relay/g/" ++ gidHex ++ "/m") false (.groupMsg ct),
        .msgEff "" text true],
       none)

/-- C1, claim theorem: `connect` is the three-way case split — an existing
group makes it a no-op that only reports "already connected"; otherwise a
known `KeyPackage` establishes the outbound session at once (group created
and indexed, `GroupInfo` and `Welcome` published, group topic subscribed);
otherwise the peer joins `PendingConnect` and `relay/k/<peer>` is
subscribed, with `groups` and `key_packages` unchanged. -/
theorem connect_cases (s : ClientState) (peer : String) (gidB : Bytes) :
    ((lookupA s.groups peer).isSome →
      connect s peer gidB = (s, [.logEff ("Already connected to " ++ peer)], none)) ∧
    ((lookupA s.groups peer).isNone → (lookupA s.key_packages peer).isSome →
      connect s peer gidB =
        ({ s with group_peers := insertA s.group_peers (hexEncode gidB) peer,
                  groups := insertA s.groups peer ⟨gidB, 2⟩ },
         [.pubEff ("relay/g/" ++ hexEncode gidB ++ "/i") true .groupInfo,
          .pubEff ("relay/w/" ++ peer) false .welcome,
          .subEff ("relay/g/" ++ hexEncode gidB ++ "/m"),
          .logEff ("Session established with " ++ peer)],
         none)) ∧
    ((lookupA s.groups peer).isNone → (lookupA s.key_packages peer).isNone →
      connect s peer gidB =
        ({ s with pending_connects := s.pending_connects ++ [peer] },
         [.subEff ("relay/k/" ++ peer), .logEff ("Connecting to " ++ peer ++ "...")],
         none)) := by
  refine ⟨fun hg => ?_, fun hg hk => ?_, fun hg hk => ?_⟩
  · rw [connect, if_pos hg]
  · obtain ⟨tok, htok⟩ := Option.isSome_iff_exists.mp hk
    have hgn : lookupA s.groups peer = none := Option.isNone_iff_eq_none.mp hg
    rw [connect, if_neg (by simp [hgn]), if_pos hk, create_group, htok]
    rfl
  · have hgn : lookupA s.groups peer = none := Option.isNone_iff_eq_none.mp hg
    have hkn : lookupA s.key_packages peer = none := Option.isNone_iff_eq_none.mp hk
    rw [connect, if_neg (by simp [hgn]), if_neg (by simp [hkn])]

/-- C1, witness: the three branches exercised on concrete states. -/
def stC1a : ClientState :=
  ⟨"me", [], [("aa", ⟨[5], 2⟩)], [(hexEncode [5], "aa")], [], 1, 0⟩

def stC1b : ClientState := ⟨"me", [("bb", 4)], [], [], [], 1, 0⟩

def stC1c : ClientState := ⟨"me", [], [], [], [], 1, 0⟩

/-- C1, witness. -/
theorem connect_cases_witness :
    (lookupA stC1a.groups "aa").isSome = true ∧
      connect stC1a "aa" [9] = (stC1a, [.logEff "Already connected to aa"], none) ∧
      (lookupA stC1b.groups "bb").isNone = true ∧
      (lookupA stC1b.key_packages "bb").isSome = true ∧
      connect stC1b "bb" [9] =
        ({ stC1b with group_peers := insertA stC1b.group_peers (hexEncode [9]) "bb",
                      groups := insertA stC1b.groups "bb" ⟨[9], 2⟩ },
         [.pubEff ("relay/g/" ++ hexEncode [9] ++ "/i") true .groupInfo,
          .pubEff "relay/w/bb" false .welcome,
          .subEff ("relay/g/" ++ hexEncode [9] ++ "/m"),
          .logEff "Session established with bb"],
         none) ∧
      connect stC1c "cc" [9] =
        ({ stC1c with pending_connects := ["cc"] },
         [.subEff "relay/k/cc", .logEff "Connecting to cc..."], none) :=
  ⟨by decide, (connect_cases stC1a "aa" [9]).1 (by decide), by decide, by decide,
    (connect_cases stC1b "bb" [9]).2.1 (by decide) (by decide),
    (connect_cases stC1c "cc" [9]).2.2 (by decide) (by decide)⟩

/-- C2, claim theorem: whenever `handle_welcome` installs a group (the only
way an inbound on `relay/w/<self>` does), it publishes — before returning —
a fresh `KeyPackage` retained on `relay/k/<self>`, and under the freshness
invariant of the key-package counter the published package differs from the
previously published one. -/
theorem handle_welcome_publishes_fresh_kp (s : ClientState) (g : Group)
    (peer : String) (hfresh : s.last_kp < s.next_fresh) :
    handle_welcome s (.joined g peer) =
      ({ s with group_peers := insertA s.group_peers (hexEncode g.gid) peer,
                groups := insertA s.groups peer g,
                next_fresh := s.next_fresh + 1, last_kp := s.next_fresh },
       [.subEff ("relay/g/" ++ hexEncode g.gid ++ "/m"),
        .pubEff ("relay/k/" ++ s.client_id) true (.kp s.next_fresh),
        .logEff ("Session established with " ++ peer),
        .logEff ("Use chat " ++ peer ++ " <message> to reply")],
       none) ∧
      s.next_fresh ≠ s.last_kp := by
  exact ⟨rfl, fun h => by omega⟩

/-- C2, witness: a client whose current key package has token 0 installs a
group from a Welcome and republishes token 1 ≠ 0. -/
def stC2 : ClientState := ⟨"me", [], [], [], [], 1, 0⟩

/-- C2, witness. -/
theorem handle_welcome_publishes_fresh_kp_witness :
    stC2.last_kp < stC2.next_fresh ∧
      handle_welcome stC2 (.joined ⟨[3], 5⟩ "aa") =
        ({ stC2 with group_peers := insertA stC2.group_peers (hexEncode [3]) "aa",
                     groups := insertA stC2.groups "aa" ⟨[3], 5⟩,
                     next_fresh := 2, last_kp := 1 },
         [.subEff ("relay/g/" ++ hexEncode [3] ++ "/m"),
          .pubEff "relay/k/me" true (.kp 1),
          .logEff "Session established with aa",
          .logEff "Use chat aa <message> to reply"],
         none) ∧
      (1 : Nat) ≠ 0 :=
  ⟨by decide,
    (handle_welcome_publishes_fresh_kp stC2 ⟨[3], 5⟩ "aa" (by decide)).1,
    (handle_welcome_publishes_fresh_kp stC2 ⟨[3], 5⟩ "aa" (by decide)).2⟩

/-- `True` exactly on the failing outcomes of the inbound key-package
parsing pipeline. -/
def KpParse.isFail : KpParse → Bool
  | .valid _ => false
  | _ => true

/-- C7, claim theorem: any failure of the CBOR unwrap, `MLSMessage`
deserialization, body extraction or validation of an inbound on
`relay/k/<peer>` (for a peer other than self) leaves the whole client state
unchanged — key packages, groups and `PendingConnect` included — produces
no effects, and returns an error. -/
theorem handle_key_package_fail_atomic (s : ClientState) (topic peer : String)
    (parse : KpParse) (gidB : Bytes) (htopic : stripPre "relay/k/" topic = some peer)
    (hself : peer ≠ s.client_id) (hfail : parse.isFail = true) :
    (handle_key_package s topic parse gidB).1 = s ∧
      (handle_key_package s topic parse gidB).2.1 = [] ∧
      (handle_key_package s topic parse gidB).2.2.isSome = true := by
  rw [handle_key_package, htopic]
  cases parse <;> simp_all [KpParse.isFail]

/-- C7, witness: a pending connect for `aa` survives a validation failure
untouched. -/
def stC7 : ClientState := ⟨"me", [], [], [], ["aa"], 1, 0⟩

/-- C7, witness. -/
theorem handle_key_package_fail_atomic_witness :
    stripPre "relay/k/" "relay/k/aa" = some "aa" ∧
      KpParse.validateFail.isFail = true ∧
      (handle_key_package stC7 "relay/k/aa" .validateFail [9]).1 = stC7 ∧
      (handle_key_package stC7 "relay/k/aa" .validateFail [9]).2.1 = [] ∧
      (handle_key_package stC7 "relay/k/aa" .validateFail [9]).2.2.isSome = true := by
  refine ⟨by decide, by decide, ?_⟩
  exact handle_key_package_fail_atomic stC7 "relay/k/aa" "aa" .validateFail [9]
    (by decide) (by decide) (by decide)

/-- C9, claim theorem: when `process_message` fails with
`CannotDecryptOwnMessage` on an inbound group message (routable to a known
group), the handler returns success, displays nothing, emits no effect and
leaves the client state — groups, group index, key packages, pending
connects — unchanged. -/
theorem handle_group_message_own_echo (s : ClientState) (topic rest gidHex peer : String)
    (g : Group) (h1 : stripPre "relay/g/" topic = some rest)
    (h2 : stripSuf "/m" rest = some gidHex)
    (h3 : lookupA s.group_peers gidHex = some peer)
    (h4 : lookupA s.groups peer = some g) :
    handle_group_message s topic (.processed .ownMsgErr) = (s, [], none) := by
  simp only [handle_group_message, h1, h2, h3, h4]

/-- C9, witness. -/
def stC9 : ClientState :=
  ⟨"me", [("aa", 4)], [("aa", ⟨[3], 5⟩)], [(hexEncode [3], "aa")], ["bb"], 2, 1⟩

/-- C9, witness. -/
theorem handle_group_message_own_echo_witness :
    handle_group_message stC9 ("relay/g/" ++ hexEncode [3] ++ "/m")
        (.processed .ownMsgErr) = (stC9, [], none) :=
  handle_group_message_own_echo stC9 ("relay/g/" ++ hexEncode [3] ++ "/m")
    (hexEncode [3] ++ "/m") (hexEncode [3]) "aa" ⟨[3], 5⟩
    (by decide) (by decide) (by decide) (by decide)

/-! ### C4: peer prefix resolution -/

/-- The known peers of the directory, as listed by the `peers` command:
session peers first, then key-package-only peers. -/
def knownPeers (s : ClientState) : List String :=
  s.groups.map Prod.fst ++
    (s.key_packages.map Prod.fst).filter (fun p => (lookupA s.groups p).isNone)

/-- The known peers whose `client_id` starts with `query`. -/
def prefMatches (s : ClientState) (query : String) : List String :=
  (knownPeers s).filter (fun k => query.data.isPrefixOf k.data)

/-- C4, counterexample state: one session peer `aabb` and one
key-package-only peer `aacc`. -/
def stC4 : ClientState :=
  ⟨"me", [("aacc", 4)], [("aabb", ⟨[5], 2⟩)], [(hexEncode [5], "aabb")], [], 1, 0⟩

/-- C4, counterexample: two known peers start with `"aa"`, yet `find_peer`
returns the session peer instead of failing with an ambiguity error — the
claim is false when the candidates split across the session map and the
key-package map. -/
theorem find_peer_ambiguous_counterexample :
    prefMatches stC4 "aa" = ["aabb", "aacc"] ∧
      find_peer stC4 "aa" = .found "aabb" := by
  constructor <;> decide

/-- `l = [] ∨ l = [p]` for a duplicate-free list all of whose members are
`p`. -/
theorem nodup_all_eq_singleton {α : Type} (l : List α) (p : α) (hnd : l.Nodup)
    (hall : ∀ x ∈ l, x = p) : l = [] ∨ l = [p] := by
  cases l with
  | nil => exact Or.inl rfl
  | cons a t =>
    have ha : a = p := hall a (List.mem_cons_self a t)
    subst ha
    cases t with
    | nil => exact Or.inr rfl
    | cons b u =>
      have hb : b = a := hall b (List.mem_cons.mpr (Or.inr (List.mem_cons_self b u)))
      subst hb
      exact absurd (List.mem_cons_self b u) (List.nodup_cons.mp hnd).1

/-- C4, amended claim theorem.  With `query` ranging over all strings and a
directory with duplicate-free key sets: (1) if exactly one known peer's id
starts with `query`, the resolver returns it; (2) if none does, it fails —
with the no-peers error on an empty directory and otherwise with the single
unknown-peer error listing all known peers; (3) if two or more match but
none is an exact hit and neither map has exactly one match, it fails with
that same unknown-peer error (there is no distinct ambiguity error); (4) if
two or more match and exactly one of them is a session peer, that session
peer is returned (the behaviour the counterexample exhibits). -/
theorem find_peer_amended (s : ClientState) (query : String)
    (hnd1 : (s.groups.map Prod.fst).Nodup)
    (hnd2 : (s.key_packages.map Prod.fst).Nodup) :
    (∀ p, prefMatches s query = [p] → find_peer s query = .found p) ∧
    (prefMatches s query = [] →
      find_peer s query =
        if (availList s).isEmpty then .errNoPeers
        else .errUnknown query (availList s)) ∧
    (2 ≤ (prefMatches s query).length →
      (lookupA s.groups query).isNone = true →
      (lookupA s.key_packages query).isNone = true →
      ((s.groups.map Prod.fst).filter
          (fun k => query.data.isPrefixOf k.data)).length ≠ 1 →
      ((s.key_packages.map Prod.fst).filter
          (fun k => query.data.isPrefixOf k.data)).length ≠ 1 →
      find_peer s query = .errUnknown query (availList s)) ∧
    (2 ≤ (prefMatches s query).length →
      (lookupA s.groups query).isNone = true →
      (lookupA s.key_packages query).isNone = true →
      ∀ p, (s.groups.map Prod.fst).filter
          (fun k => query.data.isPrefixOf k.data) = [p] →
        find_peer s query = .found p) := by
  have hmemPM : ∀ k, k ∈ prefMatches s query ↔
      ((k ∈ s.groups.map Prod.fst ∨
        (k ∈ s.key_packages.map Prod.fst ∧ (lookupA s.groups k).isNone = true)) ∧
        query.data.isPrefixOf k.data = true) := by
    intro k
    simp only [prefMatches, knownPeers, List.mem_filter, List.mem_append]
  refine ⟨fun p hm => ?_, fun hm => ?_, fun hlen hgq hkq hg1 hk1 => ?_,
    fun hlen hgq hkq p hgm => ?_⟩
  · -- (1) unique match
    by_cases hgq : (lookupA s.groups query).isSome
    · have hq : query ∈ prefMatches s query := by
        rw [hmemPM]
        exact ⟨Or.inl ((lookupA_isSome_iff_mem_keys _ _).mp hgq), by simp⟩
      rw [hm] at hq
      have : query = p := by simpa using hq
      subst this
      rw [find_peer, if_pos hgq]
    · have hgq' : lookupA s.groups query = none := by
        cases h : lookupA s.groups query with
        | none => rfl
        | some v => exact absurd (by simp [h]) hgq
      by_cases hkq : (lookupA s.key_packages query).isSome
      · have hq : query ∈ prefMatches s query := by
          rw [hmemPM]
          refine ⟨Or.inr ⟨(lookupA_isSome_iff_mem_keys _ _).mp hkq, ?_⟩, by simp⟩
          simp [hgq']
        rw [hm] at hq
        have : query = p := by simpa using hq
        subst this
        rw [find_peer, if_neg (by simp [hgq']), if_pos hkq]
      · -- no exact match; analyse the per-map prefix filters
        have hgm_sub : ∀ k ∈ (s.groups.map Prod.fst).filter
            (fun k => query.data.isPrefixOf k.data), k = p := by
          intro k hk
          rw [List.mem_filter] at hk
          have : k ∈ prefMatches s query := (hmemPM k).mpr ⟨Or.inl hk.1, hk.2⟩
          rw [hm] at this
          simpa using this
        have hgm_cases := nodup_all_eq_singleton _ p (hnd1.filter _) hgm_sub
        have hkq' : lookupA s.key_packages query = none := by
          cases h : lookupA s.key_packages query with
          | none => rfl
          | some v => exact absurd (by simp [h]) hkq
        rw [find_peer, if_neg (by simp [hgq']), if_neg (by simp [hkq'])]
        rcases hgm_cases with hgm | hgm
        · -- the session map has no prefix match: p must come from the
          -- key-package map
          have hp : p ∈ prefMatches s query := by rw [hm]; simp
          rw [hmemPM] at hp
          have hpg : p ∉ s.groups.map Prod.fst := by
            intro hmem
            have : p ∈ (s.groups.map Prod.fst).filter
                (fun k => query.data.isPrefixOf k.data) :=
              List.mem_filter.mpr ⟨hmem, hp.2⟩
            rw [hgm] at this
            cases this
          have hpk : p ∈ s.key_packages.map Prod.fst := by
            rcases hp.1 with h | h
            · exact absurd h hpg
            · exact h.1
          have hkm_sub : ∀ k ∈ (s.key_packages.map Prod.fst).filter
              (fun k => query.data.isPrefixOf k.data), k = p := by
            intro k hk
            rw [List.mem_filter] at hk
            by_cases hkg : (lookupA s.groups k).isNone
            · have : k ∈ prefMatches s query :=
                (hmemPM k).mpr ⟨Or.inr ⟨hk.1, hkg⟩, hk.2⟩
              rw [hm] at this
              simpa using this
            · exfalso
              have hkg' : (lookupA s.groups k).isSome := by
                cases h : lookupA s.groups k with
                | none => rw [h] at hkg; simp at hkg
                | some _ => simp
              have : k ∈ (s.groups.map Prod.fst).filter
                  (fun k => query.data.isPrefixOf k.data) :=
                List.mem_filter.mpr ⟨(lookupA_isSome_iff_mem_keys _ _).mp hkg', hk.2⟩
              rw [hgm] at this
              cases this
          have hkm_cases := nodup_all_eq_singleton _ p (hnd2.filter _) hkm_sub
          rcases hkm_cases with hkm | hkm
          · exfalso
            have hpref : query.data.isPrefixOf p.data = true := hp.2
            have : p ∈ (s.key_packages.map Prod.fst).filter
                (fun k => query.data.isPrefixOf k.data) :=
              List.mem_filter.mpr ⟨hpk, hpref⟩
            rw [hkm] at this
            cases this
          · rw [hgm, hkm]
        · rw [hgm]
  · -- (2) no match at all
    have hnone : ∀ k, k ∉ prefMatches s query := by intro k hk; rw [hm] at hk; cases hk
    have hgq : lookupA s.groups query = none := by
      cases h : lookupA s.groups query with
      | none => rfl
      | some _ =>
        exfalso
        refine hnone query ((hmemPM query).mpr ⟨Or.inl ?_, by simp⟩)
        exact (lookupA_isSome_iff_mem_keys _ _).mp (by simp [h])
    have hkq : lookupA s.key_packages query = none := by
      cases h : lookupA s.key_packages query with
      | none => rfl
      | some _ =>
        exfalso
        refine hnone query ((hmemPM query).mpr ⟨Or.inr ⟨?_, by simp [hgq]⟩, by simp⟩)
        exact (lookupA_isSome_iff_mem_keys _ _).mp (by simp [h])
    have hgm : (s.groups.map Prod.fst).filter
        (fun k => query.data.isPrefixOf k.data) = [] := by
      rw [List.filter_eq_nil_iff]
      intro k hk hpref
      exact hnone k ((hmemPM k).mpr ⟨Or.inl hk, hpref⟩)
    have hkm : (s.key_packages.map Prod.fst).filter
        (fun k => query.data.isPrefixOf k.data) = [] := by
      rw [List.filter_eq_nil_iff]
      intro k hk hpref
      by_cases hkg : (lookupA s.groups k).isNone
      · exact hnone k ((hmemPM k).mpr ⟨Or.inr ⟨hk, hkg⟩, hpref⟩)
      · have hkg' : k ∈ s.groups.map Prod.fst := by
          apply (lookupA_isSome_iff_mem_keys _ _).mp
          cases h : lookupA s.groups k with
          | none => rw [h] at hkg; simp at hkg
          | some _ => simp
        have : k ∈ (s.groups.map Prod.fst).filter
            (fun k => query.data.isPrefixOf k.data) :=
          List.mem_filter.mpr ⟨hkg', hpref⟩
        rw [hgm] at this
        cases this
    rw [find_peer, if_neg (by simp [hgq]), if_neg (by simp [hkq]), hgm, hkm]
  · -- (3) ambiguous and no tie-break applies: the unknown-peer error
    have hgq' : lookupA s.groups query = none := Option.isNone_iff_eq_none.mp hgq
    have hkq' : lookupA s.key_packages query = none := Option.isNone_iff_eq_none.mp hkq
    rw [find_peer, if_neg (by simp [hgq']), if_neg (by simp [hkq'])]
    have havail : (availList s).isEmpty = false := by
      have h1 : (prefMatches s query).length ≤ (knownPeers s).length :=
        List.length_filter_le _ _
      have h2 : (availList s).length = (knownPeers s).length := by
        simp [availList, knownPeers]
      have h3 : (availList s).length ≠ 0 := by omega
      cases h : availList s with
      | nil => rw [h] at h3; simp at h3
      | cons a t => simp
    cases hgm : (s.groups.map Prod.fst).filter
        (fun k => query.data.isPrefixOf k.data) with
    | nil =>
      cases hkm : (s.key_packages.map Prod.fst).filter
          (fun k => query.data.isPrefixOf k.data) with
      | nil => simp [havail]
      | cons a t =>
        cases t with
        | nil => exact absurd (by rw [hkm]; rfl) hk1
        | cons b u => simp [havail]
    | cons a t =>
      cases t with
      | nil => exact absurd (by rw [hgm]; rfl) hg1
      | cons b u =>
        cases hkm : (s.key_packages.map Prod.fst).filter
            (fun k => query.data.isPrefixOf k.data) with
        | nil => simp [havail]
        | cons a' t' =>
          cases t' with
          | nil => exact absurd (by rw [hkm]; rfl) hk1
          | cons b' u' => simp [havail]
  · -- (4) ambiguous, but a unique session-map match wins
    have hgq' : lookupA s.groups query = none := Option.isNone_iff_eq_none.mp hgq
    have hkq' : lookupA s.key_packages query = none := Option.isNone_iff_eq_none.mp hkq
    rw [find_peer, if_neg (by simp [hgq']), if_neg (by simp [hkq']), hgm]

/-- C4, witness states: a unique match, an empty match, and a two-session
ambiguity. -/
def stC4b : ClientState :=
  ⟨"me", [("aacc", 4)],
   [("aabb", ⟨[5], 2⟩), ("aacd", ⟨[6], 2⟩)],
   [(hexEncode [5], "aabb"), (hexEncode [6], "aacd")], [], 1, 0⟩

def stC4c : ClientState :=
  ⟨"me", [],
   [("aabb", ⟨[5], 2⟩), ("aacd", ⟨[6], 2⟩)],
   [(hexEncode [5], "aabb"), (hexEncode [6], "aacd")], [], 1, 0⟩

/-- C4, witness. -/
theorem find_peer_amended_witness :
    prefMatches stC4b "aab" = ["aabb"] ∧
      find_peer stC4b "aab" = .found "aabb" ∧
      prefMatches stC4b "zz" = [] ∧
      find_peer stC4b "zz" = .errUnknown "zz" (availList stC4b) ∧
      2 ≤ (prefMatches stC4c "aa").length ∧
      find_peer stC4c "aa" = .errUnknown "aa" (availList stC4c) ∧
      2 ≤ (prefMatches stC4 "aa").length ∧
      find_peer stC4 "aa" = .found "aabb" := by
  refine ⟨by decide, (find_peer_amended stC4b "aab" (by decide) (by decide)).1 "aabb"
      (by decide), by decide, ?_, by decide, ?_, by decide, ?_⟩
  · have h := (find_peer_amended stC4b "zz" (by decide) (by decide)).2.1 (by decide)
    rw [h]
    decide
  · exact (find_peer_amended stC4c "aa" (by decide) (by decide)).2.2.1 (by decide)
      (by decide) (by decide) (by decide) (by decide)
  · exact (find_peer_amended stC4 "aa" (by decide) (by decide)).2.2.2 (by decide)
      (by decide) (by decide) "aabb" (by decide)

/-! ### C5: the GroupIndex invariant over event traces -/

/-- The operations of the main loop that touch client state: the two user
commands and the three topic handlers, each with its oracle data. -/
inductive Ev where
  | evConnect (peer : String) (gidB : Bytes)
  | evKeyPkg (topic : String) (parse : KpParse) (gidB : Bytes)
  | evWelcome (parse : WParse)
  | evGroupMsg (topic : String) (parse : GmParse)
  | evChat (query text : String) (ct : Nat)
deriving DecidableEq, Repr

/-- One main-loop dispatch. -/
def step (s : ClientState) : Ev → HandlerResult
  | .evConnect p gid => connect s p gid
  | .evKeyPkg t pr gid => handle_key_package s t pr gid
  | .evWelcome pr => handle_welcome s pr
  | .evGroupMsg t pr => handle_group_message s t pr
  | .evChat q tx ct => send s q tx ct

/-- Run a trace of events (errors are logged and dropped by the loop; the
state carried across is the possibly-mutated one). -/
def run (s : ClientState) : List Ev → ClientState
  | [] => s
  | e :: es => run (step s e).1 es

/-- The state right after bootstrap (`new` + initial `publish_key_package` +
`subscribe_welcome`): empty maps, own key package token 0 published. -/
def initState (cid : String) : ClientState := ⟨cid, [], [], [], [], 1, 0⟩

/-- The claimed bijection between the `group_id → peer` index and the
`peer → Group` map, on raw lists. -/
def gpConsistentL (groups : List (String × Group)) (gp : List (String × String)) :
    Bool :=
  gp.all (fun pr =>
    match lookupA groups pr.2 with
    | some g => hexEncode g.gid == pr.1
    | none => false) &&
  groups.all (fun pg => lookupA gp (hexEncode pg.2.gid) == some pg.1)

/-- The GroupIndex invariant of the spec: `group_peers` and `groups` are
bijectively related through the hex group id. -/
def gpConsistent (s : ClientState) : Bool := gpConsistentL s.groups s.group_peers

/-- C5, counterexample trace: two `Welcome`s for the same peer with
different group ids. -/
def traceC5 : List Ev :=
  [.evWelcome (.joined ⟨[1], 0⟩ "aa"), .evWelcome (.joined ⟨[2], 0⟩ "aa")]

/-- C5, counterexample: after a second `Welcome` for an already-established
peer the invariant is broken — the stale `group_peers` entry for the first
group id survives while `groups` holds only the replacement. -/
theorem gpConsistent_counterexample :
    gpConsistent (run (initState "me") traceC5) = false := by decide

/-- Freshness precondition of one step: whenever the step installs a new
group for `peer` under group id `gidB`, the peer must not already have a
group and the (random) group id must be unused. -/
def installCheck (s : ClientState) (peer : String) (gidB : Bytes) : Bool :=
  (lookupA s.groups peer).isNone && (lookupA s.group_peers (hexEncode gidB)).isNone

def stepFresh (s : ClientState) : Ev → Bool
  | .evConnect p gid =>
    if (lookupA s.groups p).isNone && (lookupA s.key_packages p).isSome then
      installCheck s p gid
    else true
  | .evKeyPkg t pr gid =>
    match stripPre "relay/k/" t, pr with
    | some peer, .valid _ =>
      if peer = s.client_id then true
      else if peer ∈ s.pending_connects then installCheck s peer gid else true
    | _, _ => true
  | .evWelcome (.joined g peer) => installCheck s peer g.gid
  | _ => true

/-- All steps of a trace satisfy the freshness precondition. -/
def freshRun (s : ClientState) : List Ev → Bool
  | [] => true
  | e :: es => stepFresh s e && freshRun (step s e).1 es

theorem lookupA_some_mem {α : Type} (l : List (String × α)) (k : String) (v : α)
    (h : lookupA l k = some v) : (k, v) ∈ l := by
  induction l with
  | nil => cases h
  | cons p rest ih =>
    cases p with
    | mk k' v' =>
      by_cases hk : k' = k
      · subst hk
        simp [lookupA] at h
        subst h
        exact List.mem_cons_self _ _
      · exact List.mem_cons.mpr (Or.inr (ih (by simpa [lookupA, hk] using h)))

theorem mem_insertA {α : Type} (l : List (String × α)) (k : String) (v : α)
    (x : String × α) :
    x ∈ insertA l k v ↔ x = (k, v) ∨ (x ∈ l ∧ x.1 ≠ k) := by
  simp [insertA, List.mem_filter]

/-- Propositional reading of `gpConsistentL`. -/
theorem gpConsistentL_iff (groups : List (String × Group))
    (gp : List (String × String)) :
    gpConsistentL groups gp = true ↔
      ((∀ pr ∈ gp, ∃ g, lookupA groups pr.2 = some g ∧ hexEncode g.gid = pr.1) ∧
        (∀ pg ∈ groups, lookupA gp (hexEncode pg.2.gid) = some pg.1)) := by
  rw [gpConsistentL, Bool.and_eq_true, List.all_eq_true, List.all_eq_true]
  constructor
  · rintro ⟨h1, h2⟩
    refine ⟨fun pr hpr => ?_, fun pg hpg => ?_⟩
    · have := h1 pr hpr
      cases hl : lookupA groups pr.2 with
      | none => rw [hl] at this; cases this
      | some g =>
        rw [hl] at this
        exact ⟨g, rfl, by simpa using this⟩
    · simpa using h2 pg hpg
  · rintro ⟨h1, h2⟩
    refine ⟨fun pr hpr => ?_, fun pg hpg => ?_⟩
    · obtain ⟨g, hg, hx⟩ := h1 pr hpr
      rw [hg]
      simpa using hx
    · simpa using h2 pg hpg

/-- Installing a fresh group (fresh peer, fresh group id) preserves the
invariant. -/
theorem gpConsistentL_install (groups : List (String × Group))
    (gp : List (String × String)) (peer : String) (g : Group)
    (hC : gpConsistentL groups gp = true)
    (h1 : lookupA groups peer = none)
    (h2 : lookupA gp (hexEncode g.gid) = none) :
    gpConsistentL (insertA groups peer g) (insertA gp (hexEncode g.gid) peer) =
      true := by
  rw [gpConsistentL_iff] at hC ⊢
  obtain ⟨hA, hB⟩ := hC
  constructor
  · intro pr hpr
    rcases (mem_insertA _ _ _ _).mp hpr with hx | ⟨hx, hxne⟩
    · subst hx
      exact ⟨g, lookupA_insertA_self _ _ _, rfl⟩
    · obtain ⟨g0, hg0, hhex⟩ := hA pr hx
      by_cases hpe : pr.2 = peer
      · rw [hpe] at hg0; rw [hg0] at h1; cases h1
      · exact ⟨g0, by rw [lookupA_insertA_ne _ _ _ _ (fun h => hpe h.symm)]; exact hg0,
          hhex⟩
  · intro pg hpg
    rcases (mem_insertA _ _ _ _).mp hpg with hx | ⟨hx, hxne⟩
    · subst hx
      exact lookupA_insertA_self _ _ _
    · have hb := hB pg hx
      by_cases hhex : hexEncode pg.2.gid = hexEncode g.gid
      · rw [hhex] at hb; rw [hb] at h2; cases h2
      · rw [lookupA_insertA_ne _ _ _ _ (fun h => hhex h.symm)]
        exact hb

/-- Replacing a stored group by one with the same group id (the in-place
mutations of `process_message` / `merge_staged_commit` / `create_message`)
preserves the invariant. -/
theorem gpConsistentL_replace (groups : List (String × Group))
    (gp : List (String × String)) (peer : String) (g g' : Group)
    (hC : gpConsistentL groups gp = true)
    (hg : lookupA groups peer = some g)
    (hgid : g'.gid = g.gid) :
    gpConsistentL (insertA groups peer g') gp = true := by
  rw [gpConsistentL_iff] at hC ⊢
  obtain ⟨hA, hB⟩ := hC
  constructor
  · intro pr hpr
    obtain ⟨g0, hg0, hhex⟩ := hA pr hpr
    by_cases hpe : pr.2 = peer
    · refine ⟨g', by rw [hpe]; exact lookupA_insertA_self _ _ _, ?_⟩
      rw [hpe] at hg0
      rw [hg0] at hg
      cases hg
      rw [hgid]
      exact hhex
    · exact ⟨g0, by rw [lookupA_insertA_ne _ _ _ _ (fun h => hpe h.symm)]; exact hg0,
        hhex⟩
  · intro pg hpg
    rcases (mem_insertA _ _ _ _).mp hpg with hx | ⟨hx, hxne⟩
    · subst hx
      have := hB (peer, g) (lookupA_some_mem _ _ _ hg)
      simpa [hgid] using this
    · exact hB pg hx

/-- Every single step preserves the GroupIndex invariant, provided its
installs are fresh. -/
theorem gpConsistent_step (s : ClientState) (e : Ev)
    (hC : gpConsistent s = true) (hF : stepFresh s e = true) :
    gpConsistent (step s e).1 = true := by
  cases e with
  | evConnect p gid =>
    show gpConsistent (connect s p gid).1 = true
    by_cases hg : (lookupA s.groups p).isSome
    · rw [connect, if_pos hg]
      exact hC
    · have hgn : lookupA s.groups p = none := Option.not_isSome_iff_eq_none.mp hg
      by_cases hk : (lookupA s.key_packages p).isSome
      · obtain ⟨tok, htok⟩ := Option.isSome_iff_exists.mp hk
        rw [stepFresh, if_pos (by simp [hgn, hk])] at hF
        rw [installCheck, Bool.and_eq_true] at hF
        have hF2 : lookupA s.group_peers (hexEncode gid) = none :=
          Option.isNone_iff_eq_none.mp hF.2
        rw [connect, if_neg (by simp [hgn]), if_pos hk, create_group, htok]
        exact gpConsistentL_install s.groups s.group_peers p ⟨gid, 2⟩ hC hgn hF2
      · have hkn : lookupA s.key_packages p = none :=
          Option.not_isSome_iff_eq_none.mp hk
        rw [connect, if_neg (by simp [hgn]), if_neg (by simp [hkn])]
        exact hC
  | evKeyPkg t pr gid =>
    show gpConsistent (handle_key_package s t pr gid).1 = true
    cases ht : stripPre "relay/k/" t with
    | none =>
      simp only [handle_key_package, ht]
      exact hC
    | some peer =>
      by_cases hself : peer = s.client_id
      · simp only [handle_key_package, ht, if_pos hself]
        exact hC
      · cases pr with
        | cborFail => simp only [handle_key_package, ht, if_neg hself]; exact hC
        | emptyArr => simp only [handle_key_package, ht, if_neg hself]; exact hC
        | deserFail => simp only [handle_key_package, ht, if_neg hself]; exact hC
        | notKeyPackage => simp only [handle_key_package, ht, if_neg hself]; exact hC
        | validateFail => simp only [handle_key_package, ht, if_neg hself]; exact hC
        | valid tok =>
          by_cases hp : peer ∈ s.pending_connects
          · simp only [stepFresh, ht, if_neg hself, if_pos hp] at hF
            rw [installCheck, Bool.and_eq_true] at hF
            have hF1 : lookupA s.groups peer = none :=
              Option.isNone_iff_eq_none.mp hF.1
            have hF2 : lookupA s.group_peers (hexEncode gid) = none :=
              Option.isNone_iff_eq_none.mp hF.2
            simp only [handle_key_package, ht, if_neg hself, hp, if_true, if_pos,
              create_group, lookupA_insertA_self]
            exact gpConsistentL_install s.groups s.group_peers peer ⟨gid, 2⟩ hC hF1 hF2
          · simp only [handle_key_package, ht, if_neg hself, hp, if_false, if_neg]
            exact hC
  | evWelcome pr =>
    show gpConsistent (handle_welcome s pr).1 = true
    cases pr with
    | deserFail => exact hC
    | notWelcome => exact hC
    | joinFail => exact hC
    | joined g peer =>
      simp only [stepFresh, installCheck, Bool.and_eq_true] at hF
      have hF1 : lookupA s.groups peer = none := Option.isNone_iff_eq_none.mp hF.1
      have hF2 : lookupA s.group_peers (hexEncode g.gid) = none :=
        Option.isNone_iff_eq_none.mp hF.2
      exact gpConsistentL_install s.groups s.group_peers peer g hC hF1 hF2
  | evGroupMsg t pr =>
    show gpConsistent (handle_group_message s t pr).1 = true
    cases h1 : stripPre "relay/g/" t with
    | none =>
      simp only [handle_group_message, h1]
      exact hC
    | some rest =>
      cases h2 : stripSuf "/m" rest with
      | none =>
        simp only [handle_group_message, h1, h2]
        exact hC
      | some gidHex =>
        cases h3 : lookupA s.group_peers gidHex with
        | none =>
          simp only [handle_group_message, h1, h2, h3]
          exact hC
        | some peer =>
          cases h4 : lookupA s.groups peer with
          | none =>
            simp only [handle_group_message, h1, h2, h3, h4]
            exact hC
          | some g =>
            cases pr with
            | deserFail =>
              simp only [handle_group_message, h1, h2, h3, h4]
              exact hC
            | badBody =>
              simp only [handle_group_message, h1, h2, h3, h4]
              exact hC
            | processed o =>
              cases o with
              | ownMsgErr =>
                simp only [handle_group_message, h1, h2, h3, h4]
                exact hC
              | otherErr =>
                simp only [handle_group_message, h1, h2, h3, h4]
                exact hC
              | appMsg text =>
                simp only [handle_group_message, h1, h2, h3, h4]
                exact gpConsistentL_replace s.groups s.group_peers peer g
                  { g with ratchet := g.ratchet + 1 } hC h4 rfl
              | stagedOk =>
                simp only [handle_group_message, h1, h2, h3, h4]
                exact gpConsistentL_replace s.groups s.group_peers peer g
                  { g with ratchet := g.ratchet + 2 } hC h4 rfl
              | stagedFail =>
                simp only [handle_group_message, h1, h2, h3, h4]
                exact gpConsistentL_replace s.groups s.group_peers peer g
                  { g with ratchet := g.ratchet + 1 } hC h4 rfl
              | proposalMsg =>
                simp only [handle_group_message, h1, h2, h3, h4]
                exact gpConsistentL_replace s.groups s.group_peers peer g
                  { g with ratchet := g.ratchet + 1 } hC h4 rfl
  | evChat q tx ct =>
    show gpConsistent (send s q tx ct).1 = true
    cases hf : find_peer s q with
    | errNoPeers =>
      simp only [send, hf]
      exact hC
    | errUnknown q' avail =>
      simp only [send, hf]
      exact hC
    | found peer =>
      cases h4 : lookupA s.groups peer with
      | none =>
        simp only [send, hf, h4]
        exact hC
      | some g =>
        simp only [send, hf, h4]
        exact gpConsistentL_replace s.groups s.group_peers peer g
          { g with ratchet := g.ratchet + 1 } hC h4 rfl

/-- The invariant holds along every fresh trace. -/
theorem gpConsistent_run (s : ClientState) (es : List Ev)
    (hC : gpConsistent s = true) (hF : freshRun s es = true) :
    gpConsistent (run s es) = true := by
  induction es generalizing s with
  | nil => exact hC
  | cons e rest ih =>
    rw [freshRun, Bool.and_eq_true] at hF
    exact ih _ (gpConsistent_step s e hC hF.1) hF.2

/-- C5, amended claim theorem: after every sequence of operations in which
no install reuses a peer that already has a group nor a group id already in
the index (i.e. no second `Welcome`/`create_group` for an established peer
and no group-id collision — exactly what the counterexample violates), the
`group_peers` index and the `groups` map are bijectively related through
the hex group id. -/
theorem gpConsistent_amended (cid : String) (es : List Ev)
    (hF : freshRun (initState cid) es = true) :
    gpConsistent (run (initState cid) es) = true :=
  gpConsistent_run (initState cid) es rfl hF

/-- C5, witness trace: a `Welcome` install, an application message on the
group topic, and a chat — the invariant holds throughout. -/
def traceC5w : List Ev :=
  [.evWelcome (.joined ⟨[1], 0⟩ "aa"),
   .evGroupMsg ("relay/g/" ++ hexEncode [1] ++ "/m") (.processed (.appMsg "yo")),
   .evChat "aa" "hi" 7]

/-- C5, witness. -/
theorem gpConsistent_amended_witness :
    freshRun (initState "me") traceC5w = true ∧
      gpConsistent (run (initState "me") traceC5w) = true :=
  ⟨by decide, gpConsistent_amended "me" traceC5w (by decide)⟩

/-! ## The sealed-sender variant client (`relay/src/main.rs`): `send_chat`

Only what C6 needs: the state `AppState`, the bundle map and the `chat`
command.  The sealed envelope itself is modelled above; at the `send_chat`
level a publish to `relay/u/<peer>/inbox` is recorded as an effect with its
decrypted content (the sealing always succeeds once a peer key is
available, mining time aside). -/

/-- Outcome of deserializing/validating the `key_package` bytes of a
`PublicBundle` inside `send_chat`. -/
inductive BKpParse where
  | deserFail
  | notKeyPackage
  | validateFail
  | valid (tok : Nat)
deriving DecidableEq, Repr

/-- `PublicBundle` (the retained advertisement on `relay/u/<id>/keys`). -/
structure PublicBundle where
  key_package : BKpParse
  sealed_sender_public_key : Bytes
deriving DecidableEq, Repr

/-- `AppState` of the sealed-sender variant (identity/crypto fields beyond
what `send_chat` touches are omitted). -/
structure AppState where
  user_id : String
  outer_public : Bytes
  peer_bundles : List (String × PublicBundle)
  peer_outer_keys : List (String × Bytes)
  mlsGroups : List (String × Group)       -- `groups` field of `AppState`
deriving DecidableEq, Repr

/-- Decrypted content of an inbox publish: a `Welcome` inner payload
(`msg_type = 3`) or an application message (`msg_type = 5`). -/
inductive OutMsg2 where
  | sealedWelcome
  | sealedChat (text : String)
deriving DecidableEq, Repr

/-- A publish of the sealed-sender variant, by its decrypted content. -/
inductive Effect2 where
  | pubInbox (peer : String) (m : OutMsg2)
deriving DecidableEq, Repr

/-- The `anyhow` errors of `send_chat`. -/
inductive ChatErr where
  | unknownPeerBundle     -- "Unknown peer (run connect)"
  | kpDeserFail
  | kpNotKeyPackage       -- "Expected KeyPackage"
  | kpValidateFail        -- "KeyPackage validation failed"
  | noPeerKey             -- "No peer public key available"
  | sealInvalidKey        -- "Invalid Key" propagated from seal_message
deriving DecidableEq, Repr

/-- `send_chat(client, state, peer, text)`.  `gidB` is the random group id
drawn by `MlsGroup::new` when no group exists yet.  With no group and a
valid bundle it creates the group and inserts it (create + add_members +
merge: ratchet counter 2) and then seals the `Welcome` against the bundle's
outer key: `seal_message` fails with "Invalid Key" unless that key is 32
bytes, in which case the error propagates with the group already inserted
and nothing published; otherwise the `Welcome` publish is followed by
`create_message` (ratchet counter 3) and the sealed chat publish.  With a
group it encrypts on it (ratchet bump) and then resolves the peer key from
the bundle or the stored outer keys — failing if none is known or if the
resolved key is not 32 bytes — and publishes.  (The PoW mining loop of
`seal_message` is not a data-dependent failure and is left abstract at this
level.) -/
def send_chat (st : AppState) (peer text : String) (gidB : Bytes) :
    AppState × List Effect2 × Option ChatErr :=
  match lookupA st.mlsGroups peer with
  | none =>
    match lookupA st.peer_bundles peer with
    | none => (st, [], some .unknownPeerBundle)
    | some b =>
      match b.key_package with
      | .deserFail => (st, [], some .kpDeserFail)
      | .notKeyPackage => (st, [], some .kpNotKeyPackage)
      | .validateFail => (st, [], some .kpValidateFail)
      | .valid _ =>
        if b.sealed_sender_public_key.length = 32 then
          ({ st with mlsGroups := insertA st.mlsGroups peer ⟨gidB, 3⟩ },
           [.pubInbox peer .sealedWelcome, .pubInbox peer (.sealedChat text)],
           none)
        else
          -- seal_message(&welcome_inner, &peer_pk)? fails after the group
          -- insert but before any publish
          ({ st with mlsGroups := insertA st.mlsGroups peer ⟨gidB, 2⟩ },
           [], some .sealInvalidKey)
  | some g =>
    let st1 := { st with
      mlsGroups := insertA st.mlsGroups peer { g with ratchet := g.ratchet + 1 } }
    match lookupA st.peer_bundles peer with
    | some b =>
      if b.sealed_sender_public_key.length = 32 then
        (st1, [.pubInbox peer (.sealedChat text)], none)
      else (st1, [], some .sealInvalidKey)
    | none =>
      match lookupA st.peer_outer_keys peer with
      | some pk =>
        if pk.length = 32 then (st1, [.pubInbox peer (.sealedChat text)], none)
        else (st1, [], some .sealInvalidKey)
      | none => (st1, [], some .noPeerKey)

/-- C6, counterexample state: the sealed-sender variant knows `bb`'s bundle
(with a well-formed 32-byte outer key) but has no session with `bb`. -/
def stC6 : AppState :=
  ⟨"me", List.replicate 32 2, [("bb", ⟨.valid 0, List.replicate 32 7⟩)], [], []⟩

/-- C6, counterexample: `chat` to a peer with no installed group does not
fail — the sealed-sender variant's chat establishes the session on the fly:
it returns no error, creates a group for the peer and publishes (the sealed
`Welcome` and the message), contradicting the claim's no-session clause. -/
theorem send_chat_counterexample :
    (send_chat stC6 "bb" "hi" [9]).2.2 = none ∧
      (lookupA (send_chat stC6 "bb" "hi" [9]).1.mlsGroups "bb").isSome = true ∧
      (send_chat stC6 "bb" "hi" [9]).2.1 ≠ [] := by
  refine ⟨by decide, by decide, by decide⟩

/-- C6, amended claim theorem.  In the reference client, chat requires an
established session: a resolved peer without a group yields the no-session
error with nothing published and no group created, and a peer with a group
gets the `create_message` ciphertext published on `relay/g/<group_hex>/m`
for that group's id.  In the sealed-sender variant, chat to a peer with
neither group nor bundle fails (unknown peer) publishing nothing; a known
bundle with a well-formed (32-byte) outer key makes chat establish the
session first (group created, sealed `Welcome` then message published)
instead of failing; and a bundle whose outer key is not 32 bytes makes the
`Welcome` sealing fail with "Invalid Key" — nothing is published, yet the
group has already been created and kept. -/
theorem chat_requires_session_amended (s : ClientState) (st : AppState)
    (query text ptext peer : String) (ct : Nat) (gidB : Bytes) :
    (find_peer s query = .found peer → lookupA s.groups peer = none →
      send s query text ct = (s, [], some (.noSession peer))) ∧
    (∀ g, find_peer s query = .found peer → lookupA s.groups peer = some g →
      send s query text ct =
        ({ s with groups := insertA s.groups peer { g with ratchet := g.ratchet + 1 } },
         [.pubEff ("relay/g/" ++ hexEncode g.gid ++ "/m") false (.groupMsg ct),
          .msgEff "" text true],
         none)) ∧
    (lookupA st.mlsGroups peer = none → lookupA st.peer_bundles peer = none →
      send_chat st peer ptext gidB = (st, [], some .unknownPeerBundle)) ∧
    (∀ pk tok, lookupA st.mlsGroups peer = none →
      lookupA st.peer_bundles peer = some ⟨.valid tok, pk⟩ →
      pk.length = 32 →
      send_chat st peer ptext gidB =
        ({ st with mlsGroups := insertA st.mlsGroups peer ⟨gidB, 3⟩ },
         [.pubInbox peer .sealedWelcome, .pubInbox peer (.sealedChat ptext)],
         none)) ∧
    (∀ pk tok, lookupA st.mlsGroups peer = none →
      lookupA st.peer_bundles peer = some ⟨.valid tok, pk⟩ →
      pk.length ≠ 32 →
      send_chat st peer ptext gidB =
        ({ st with mlsGroups := insertA st.mlsGroups peer ⟨gidB, 2⟩ },
         [], some .sealInvalidKey)) := by
  refine ⟨fun hf hg => ?_, fun g hf hg => ?_, fun hg hb => ?_,
    fun pk tok hg hb hlen => ?_, fun pk tok hg hb hlen => ?_⟩
  · simp only [send, hf, hg]
  · simp only [send, hf, hg]
  · simp only [send_chat, hg, hb]
  · simp only [send_chat, hg, hb]
    rw [if_pos hlen]
  · simp only [send_chat, hg, hb]
    rw [if_neg hlen]

/-- C6, witness states: the reference client with one session peer and one
key-package-only peer, and the sealed variant with a well-formed bundle for
`bb` and a malformed (1-byte outer key) bundle for `dd`. -/
def stC6b : ClientState :=
  ⟨"me", [("cc", 4)], [("aa", ⟨[5], 2⟩)], [(hexEncode [5], "aa")], [], 1, 0⟩

def stC6c : AppState :=
  ⟨"me", List.replicate 32 2,
   [("bb", ⟨.valid 0, List.replicate 32 7⟩), ("dd", ⟨.valid 1, [7]⟩)], [], []⟩

/-- C6, witness. -/
theorem chat_requires_session_amended_witness :
    send stC6b "cc" "hi" 3 = (stC6b, [], some (.noSession "cc")) ∧
      send stC6b "aa" "hi" 3 =
        ({ stC6b with groups := insertA stC6b.groups "aa" ⟨[5], 3⟩ },
         [.pubEff ("relay/g/" ++ hexEncode [5] ++ "/m") false (.groupMsg 3),
          .msgEff "" "hi" true],
         none) ∧
      send_chat stC6c "zz" "hi" [9] = (stC6c, [], some .unknownPeerBundle) ∧
      send_chat stC6c "bb" "hi" [9] =
        ({ stC6c with mlsGroups := insertA stC6c.mlsGroups "bb" ⟨[9], 3⟩ },
         [.pubInbox "bb" .sealedWelcome, .pubInbox "bb" (.sealedChat "hi")],
         none) ∧
      send_chat stC6c "dd" "hi" [9] =
        ({ stC6c with mlsGroups := insertA stC6c.mlsGroups "dd" ⟨[9], 2⟩ },
         [], some .sealInvalidKey) :=
  ⟨(chat_requires_session_amended stC6b stC6c "cc" "hi" "hi" "cc" 3 [9]).1
      (by decide) (by decide),
    (chat_requires_session_amended stC6b stC6c "aa" "hi" "hi" "aa" 3 [9]).2.1
      ⟨[5], 2⟩ (by decide) (by decide),
    (chat_requires_session_amended stC6b stC6c "aa" "hi" "hi" "zz" 3 [9]).2.2.1
      (by decide) (by decide),
    (chat_requires_session_amended stC6b stC6c "aa" "hi" "hi" "bb" 3 [9]).2.2.2.1
      (List.replicate 32 7) 0 (by decide) (by decide) (by decide),
    (chat_requires_session_amended stC6b stC6c "aa" "hi" "hi" "dd" 3 [9]).2.2.2.2
      [7] 1 (by decide) (by decide) (by decide)⟩

/-! ## The MLS facade (`swift-openmls/src/lib.rs`): `RelayMlsClient::decrypt` -/

/-- The `groups` map of `RelayMlsClient`, keyed by the hex group id. -/
structure RmcState where
  groups : List (String × Group)
deriving DecidableEq, Repr

/-- Outcome of deserializing the ciphertext and of `process_message` inside
`RelayMlsClient::decrypt`. -/
inductive DecParse where
  | deserFail
  | invalidType                -- body neither Private- nor PublicMessage
  | processFail                -- process_message errors
  | appOut (pt : Bytes)        -- ApplicationMessage
  | staged (mergeOk : Bool)    -- StagedCommitMessage (merge succeeds/fails)
  | proposal                   -- ProposalMessage / external join
deriving DecidableEq, Repr

/-- The `OpenMlsError` values `decrypt` can return. -/
inductive RmcErr where
  | groupNotFound
  | serializationErr
  | invalidMsgType
  | processErr
  | mergeFailErr
  | commitNotApp               -- InvalidInput "Received commit, not application message"
  | proposalNotApp
deriving DecidableEq, Repr

structure DecryptedMessage where
  plaintext : Bytes
  sender_client_id : String
deriving DecidableEq, Repr

/-- `RelayMlsClient::decrypt(group_id, ciphertext)`.  Mutations performed on
the stored group before an error is returned persist (`&mut` borrow from
the map). -/
def rmc_decrypt (st : RmcState) (gidHex : String) (parse : DecParse) :
    RmcState × Except RmcErr DecryptedMessage :=
  match lookupA st.groups gidHex with
  | none => (st, .error .groupNotFound)
  | some g =>
    match parse with
    | .deserFail => (st, .error .serializationErr)
    | .invalidType => (st, .error .invalidMsgType)
    | .processFail => (st, .error .processErr)
    | .appOut pt =>
      (⟨insertA st.groups gidHex { g with ratchet := g.ratchet + 1 }⟩,
       .ok ⟨pt, "unknown"⟩)
    | .staged true =>
      (⟨insertA st.groups gidHex { g with ratchet := g.ratchet + 2 }⟩,
       .error .commitNotApp)
    | .staged false =>
      (⟨insertA st.groups gidHex { g with ratchet := g.ratchet + 1 }⟩,
       .error .mergeFailErr)
    | .proposal =>
      (⟨insertA st.groups gidHex { g with ratchet := g.ratchet + 1 }⟩,
       .error .proposalNotApp)

/-- C10, claim theorem: on a ciphertext that processes to a staged commit,
`decrypt` merges the commit into the stored group — the stored group state
changes — and then returns the "Received commit, not application message"
error: the error does not imply the state is unchanged. -/
theorem rmc_decrypt_commit_mutates (st : RmcState) (gidHex : String) (g : Group)
    (h : lookupA st.groups gidHex = some g) :
    (rmc_decrypt st gidHex (.staged true)).2 = .error .commitNotApp ∧
      (rmc_decrypt st gidHex (.staged true)).1 =
        ⟨insertA st.groups gidHex { g with ratchet := g.ratchet + 2 }⟩ ∧
      lookupA (rmc_decrypt st gidHex (.staged true)).1.groups gidHex ≠ some g := by
  refine ⟨by simp only [rmc_decrypt, h], by simp only [rmc_decrypt, h], ?_⟩
  simp only [rmc_decrypt, h, lookupA_insertA_self]
  intro heq
  have := Option.some.inj heq
  have hr : g.ratchet + 2 = g.ratchet := congrArg Group.ratchet this
  omega

/-- C10, witness. -/
def stC10 : RmcState := ⟨[(hexEncode [1], ⟨[1], 0⟩)]⟩

/-- C10, witness. -/
theorem rmc_decrypt_commit_mutates_witness :
    (rmc_decrypt stC10 (hexEncode [1]) (.staged true)).2 = .error .commitNotApp ∧
      (rmc_decrypt stC10 (hexEncode [1]) (.staged true)).1 =
        ⟨insertA stC10.groups (hexEncode [1]) ⟨[1], 2⟩⟩ ∧
      lookupA (rmc_decrypt stC10 (hexEncode [1]) (.staged true)).1.groups
          (hexEncode [1]) ≠ some ⟨[1], 0⟩ :=
  rmc_decrypt_commit_mutates stC10 (hexEncode [1]) ⟨[1], 0⟩ (by decide)

end Relay
